import Mathlib

/-!
Shallow embedding of the TechNova user-registration service
(`src/server/server.js`, Express + MySQL) and its React client form
(`src/components/Registration.jsx`).

Records are kept in an in-memory list standing for the `users` table;
MySQL auto-increment is a `nextId` counter, and the fresh salt drawn by
`bcrypt.genSalt` on each hashing call is a `nextSalt` counter.  String
fields are Lean `String`s; JS character classes are translated to
predicates on `Char`.
-/

/-- Characters treated as whitespace by JavaScript string `trim` and the
regex class `\s` (restricted to the common ASCII range plus NBSP). -/
def jsWhitespace (c : Char) : Bool :=
  c = ' ' || c = Char.ofNat 9 || c = Char.ofNat 10 || c = Char.ofNat 11 ||
  c = Char.ofNat 12 || c = Char.ofNat 13 || c = Char.ofNat 160

/-- JavaScript `String.prototype.trim` on a character list: drop leading and
trailing whitespace. -/
def trimL (cs : List Char) : List Char :=
  ((cs.dropWhile jsWhitespace).reverse.dropWhile jsWhitespace).reverse

/-- JavaScript `String.prototype.trim` on a `String`. -/
def jsTrim (s : String) : String :=
  String.mk (trimL s.data)

/-- Split a character list at every occurrence of `sep` (the separator is
dropped), as JavaScript `split` does. -/
def splitOnCharL (sep : Char) : List Char → List (List Char)
  | [] => [[]]
  | c :: cs =>
    let r := splitOnCharL sep cs
    if c = sep then [] :: r
    else
      match r with
      | h :: t => (c :: h) :: t
      | [] => [[c]]

/-- Test for the regex class `[A-Z]` used by both the client password
checker and the server `passwordValidation` chain. -/
def hasUppercase (s : String) : Bool :=
  s.data.any fun c => decide (65 ≤ c.toNat) && decide (c.toNat ≤ 90)

/-- Test for the regex class `[a-z]`. -/
def hasLowercase (s : String) : Bool :=
  s.data.any fun c => decide (97 ≤ c.toNat) && decide (c.toNat ≤ 122)

/-- Test for the regex class `[0-9]`. -/
def hasNumber (s : String) : Bool :=
  s.data.any fun c => decide (48 ≤ c.toNat) && decide (c.toNat ≤ 57)

/-- The fixed special-character set of the password policy, the regex class
written in the source as `[!@#$%^&*(),.?":` followed by brace, brace, `|<>]`
(codes 34, 123 and 125 are the double quote and the two braces). -/
def specialChars : List Char :=
  ['!', '@', '#', '$', '%', Char.ofNat 94, '&', '*', '(', ')', ',', '.', '?',
   Char.ofNat 34, ':', Char.ofNat 123, Char.ofNat 125, '|', '<', '>']

/-- Test for the special-character regex of the password policy. -/
def hasSpecial (s : String) : Bool :=
  s.data.any fun c => specialChars.contains c

/-- Test for the policy predicate `password.length >= 8`. -/
def minLength8 (s : String) : Bool :=
  decide (8 ≤ s.length)

/-! ## Client form validator (`Registration.jsx`) -/

/-- The five password-policy booleans computed by the client component
state `passwordValidation` (function `validatePassword`). -/
structure PasswordValidation where
  minLength : Bool
  hasUppercase : Bool
  hasLowercase : Bool
  hasNumber : Bool
  hasSpecial : Bool
deriving DecidableEq, Repr

/-- Client `validatePassword`: recompute the five policy predicates for the
current password text. -/
def validatePassword (password : String) : PasswordValidation :=
  { minLength := minLength8 password
    hasUppercase := hasUppercase password
    hasLowercase := hasLowercase password
    hasNumber := hasNumber password
    hasSpecial := hasSpecial password }

/-- Client `isPasswordValid`: vacuously true while editing an existing
record (`editingId` set) with an empty password field; otherwise the
conjunction of the five predicates.  Server-assigned ids start at 1, so
the JS truthiness test on `editingId` is `Option.isSome` here. -/
def isPasswordValid (editingId : Option Nat) (password : String) : Bool :=
  if editingId.isSome && password == "" then true
  else
    let v := validatePassword password
    v.minLength && v.hasUppercase && v.hasLowercase && v.hasNumber && v.hasSpecial

/-! ## Server-side field validators (`validateUser` middleware) -/

/-- Characters validator.js accepts in an unquoted ASCII e-mail local
part: alphanumerics and the RFC special characters (codes 39, 96, 123 and
125 are the apostrophe, the backtick and the two braces). -/
def emailLocalChar (c : Char) : Bool :=
  c.isAlphanum ||
  ['!', '#', '$', '%', '&', Char.ofNat 39, '*', '+', '-', '/', '=', '?',
   Char.ofNat 94, '_', Char.ofNat 96, Char.ofNat 123, '|', Char.ofNat 125,
   '~'].contains c

/-- One dot-separated part of the e-mail local part must be non-empty and
made of accepted characters. -/
def emailLocalOk (lp : List Char) : Bool :=
  !lp.isEmpty && decide (lp.length ≤ 64) &&
  (splitOnCharL '.' lp).all fun part => !part.isEmpty && part.all emailLocalChar

/-- Domain check of validator.js `isEmail` (default options): a fully
qualified domain name, at least two dot-separated labels, each label
non-empty, at most 63 characters, alphanumeric or hyphen with no hyphen at
either end, and an alphabetic top-level label of length at least 2. -/
def fqdnOk (dom : List Char) : Bool :=
  let parts := splitOnCharL '.' dom
  decide (2 ≤ parts.length) &&
  (parts.all fun part =>
    !part.isEmpty && decide (part.length ≤ 63) &&
    (part.all fun c => c.isAlphanum || c = '-') &&
    part.head? != some '-' && part.getLast? != some '-') &&
  (match parts.getLast? with
   | some tld => decide (2 ≤ tld.length) && tld.all Char.isAlpha
   | none => false)

/-- Models validator.js `isEmail` with default options on ASCII input
without display names or quoted local parts: total length at most 254 and
exactly one `@` separating an accepted local part from an FQDN. -/
def isEmail (s : String) : Bool :=
  if 254 < s.data.length then false
  else
    match splitOnCharL '@' s.data with
    | [lp, dom] => emailLocalOk lp && fqdnOk dom
    | _ => false

/-- Consume one optional character satisfying `p`: the two regex
alternatives for a `?`-quantified atom, as remainders of the input. -/
def optTake (p : Char → Bool) (cs : List Char) : List (List Char) :=
  match cs with
  | c :: rest => if p c then [rest, cs] else [cs]
  | [] => [cs]

/-- Remainders of the input after consuming between 1 and `n` leading
digits (all the backtracking alternatives of a regex `[0-9]` with a
bounded repetition). -/
def digitTakes : Nat → List Char → List (List Char)
  | 0, _ => []
  | n + 1, cs =>
    match cs with
    | c :: rest => if c.isDigit then rest :: digitTakes n rest else []
    | [] => []

/-- The separator atom `[-\s.]?` of the phone regex. -/
def phoneSep (cs : List Char) : List (List Char) :=
  optTake (fun c => c = '-' || jsWhitespace c || c = '.') cs

/-- Full-match semantics (with backtracking) of the server phone regex
anchored at both ends: optional plus, optional opening parenthesis, 1-4
digits, optional closing parenthesis, optional separator, 1-4 digits,
optional separator, 1-9 digits. -/
def matchPhone (s : String) : Bool :=
  let r1 := optTake (fun c => c = '+') s.data
  let r2 := r1.flatMap (optTake (fun c => c = '('))
  let r3 := r2.flatMap (digitTakes 4)
  let r4 := r3.flatMap (optTake (fun c => c = ')'))
  let r5 := r4.flatMap phoneSep
  let r6 := r5.flatMap (digitTakes 4)
  let r7 := r6.flatMap phoneSep
  let r8 := r7.flatMap (digitTakes 9)
  r8.any List.isEmpty

/-- The five messages of the `passwordValidation` chain, in chain order,
for each failing policy predicate. -/
def passwordErrors (pw : String) : List String :=
  (if minLength8 pw then [] else ["Password must be at least 8 characters"]) ++
  (if hasUppercase pw then [] else ["Password must contain at least one uppercase letter"]) ++
  (if hasLowercase pw then [] else ["Password must contain at least one lowercase letter"]) ++
  (if hasNumber pw then [] else ["Password must contain at least one number"]) ++
  (if hasSpecial pw then [] else ["Password must contain at least one special character"])

/-- HTTP method of the request being validated; the `password` custom
validator branches on it. -/
inductive Method where
  | post
  | put
deriving DecidableEq, Repr

/-- Request payload destructured by the route handlers from `req.body`.
Absent JSON fields are `none`; `skills` is `none` when the field is
missing or not an array. -/
structure Payload where
  name : String
  email : String
  password : Option String
  phone : Option String
  role : String
  skills : Option (List String)
deriving DecidableEq, Repr

/-- The JS test `!value || value.trim() === ''` used by the password
custom validator and by the update handler. -/
def passwordEmpty (pw? : Option String) : Bool :=
  match pw? with
  | none => true
  | some pw => (trimL pw.data).isEmpty

/-- The `validateUser` middleware list: collects the violation messages of
all six chains in declaration order (name, email, password, role, phone,
skills).  The name chain's `trim()` sanitizes `req.body.name` before the
length check; the password chain is skipped on PUT when the password is
absent or blank; the phone chain is skipped when the field is absent. -/
def validateUser (method : Method) (p : Payload) : List String :=
  (if 2 ≤ (trimL p.name.data).length then [] else ["Name must be at least 2 characters"]) ++
  (if isEmail p.email then [] else ["Invalid email address"]) ++
  (if method = Method.put && passwordEmpty p.password then []
   else passwordErrors (p.password.getD "")) ++
  (if p.role = "user" ∨ p.role = "admin" ∨ p.role = "developer" then []
   else ["Invalid role"]) ++
  (match p.phone with
   | none => []
   | some ph => if matchPhone ph then [] else ["Invalid phone number format"]) ++
  (if p.skills.isSome then [] else ["Skills must be an array"])

/-! ## JSON serialization of the skills array

`JSON.stringify` on an array of strings and the fragment of `JSON.parse`
that reads it back.  Both work on character lists; `String` wrappers
follow. -/

/-- The double-quote character (code 34). -/
def jsonQuote : Char := Char.ofNat 34

/-- The backslash character (code 92). -/
def jsonBS : Char := Char.ofNat 92

/-- Lowercase hexadecimal digit for `n < 16`. -/
def hexChar (n : Nat) : Char :=
  if n < 10 then Char.ofNat (48 + n) else Char.ofNat (87 + n)

/-- Value of a hexadecimal digit character. -/
def hexVal (c : Char) : Option Nat :=
  if 48 ≤ c.toNat ∧ c.toNat ≤ 57 then some (c.toNat - 48)
  else if 97 ≤ c.toNat ∧ c.toNat ≤ 102 then some (c.toNat - 87)
  else if 65 ≤ c.toNat ∧ c.toNat ≤ 70 then some (c.toNat - 55)
  else none

/-- How `JSON.stringify` escapes one character inside a string literal:
quote and backslash get a backslash, the five named control characters get
their short escapes, the remaining control characters get a `u00` escape,
everything else stands for itself. -/
def escapeChar (c : Char) : List Char :=
  if c = jsonQuote then [jsonBS, jsonQuote]
  else if c = jsonBS then [jsonBS, jsonBS]
  else if c = Char.ofNat 10 then [jsonBS, 'n']
  else if c = Char.ofNat 13 then [jsonBS, 'r']
  else if c = Char.ofNat 9 then [jsonBS, 't']
  else if c = Char.ofNat 8 then [jsonBS, 'b']
  else if c = Char.ofNat 12 then [jsonBS, 'f']
  else if c.toNat < 32 then [jsonBS, 'u', '0', '0', hexChar (c.toNat / 16), hexChar (c.toNat % 16)]
  else [c]

/-- Escape a whole string body. -/
def escapeStr : List Char → List Char
  | [] => []
  | c :: cs => escapeChar c ++ escapeStr cs

/-- Items after the first one: a comma, then the quoted item, then the
rest; the closing bracket when no items remain. -/
def encTail : List (List Char) → List Char
  | [] => [']']
  | s :: t => ',' :: jsonQuote :: (escapeStr s ++ jsonQuote :: encTail t)

/-- `JSON.stringify` on an array of strings. -/
def encodeSkillsL : List (List Char) → List Char
  | [] => ['[', ']']
  | s :: t => '[' :: jsonQuote :: (escapeStr s ++ jsonQuote :: encTail t)

/-- State machine for the fragment of `JSON.parse` that reads a
whitespace-free array of string literals.  `inStr = true` means a string
literal is open: `cur` is its decoded body so far and `acc` the items
already read.  `inStr = false` expects a comma and then another string,
or the closing bracket followed by end of input.  Surrogate pairing of
`u`-escapes is not modelled (the encoder never emits them above `u001f`). -/
def skillsParse : Bool → List Char → List (List Char) → List Char → Option (List (List Char))
  | true, _, _, [] => none
  | true, cur, acc, c :: rest =>
    if c = jsonQuote then skillsParse false [] (acc ++ [cur]) rest
    else if c = jsonBS then
      match rest with
      | [] => none
      | e :: rest2 =>
        if e = jsonQuote then skillsParse true (cur ++ [jsonQuote]) acc rest2
        else if e = jsonBS then skillsParse true (cur ++ [jsonBS]) acc rest2
        else if e = '/' then skillsParse true (cur ++ ['/']) acc rest2
        else if e = 'n' then skillsParse true (cur ++ [Char.ofNat 10]) acc rest2
        else if e = 'r' then skillsParse true (cur ++ [Char.ofNat 13]) acc rest2
        else if e = 't' then skillsParse true (cur ++ [Char.ofNat 9]) acc rest2
        else if e = 'b' then skillsParse true (cur ++ [Char.ofNat 8]) acc rest2
        else if e = 'f' then skillsParse true (cur ++ [Char.ofNat 12]) acc rest2
        else if e = 'u' then
          match rest2 with
          | h1 :: h2 :: h3 :: h4 :: rest3 =>
            match hexVal h1, hexVal h2, hexVal h3, hexVal h4 with
            | some a, some b, some c2, some d =>
              skillsParse true (cur ++ [Char.ofNat (((a * 16 + b) * 16 + c2) * 16 + d)]) acc rest3
            | _, _, _, _ => none
          | _ => none
        else none
    else if c.toNat < 32 then none
    else skillsParse true (cur ++ [c]) acc rest
  | false, _, acc, c :: rest =>
    if c = ']' then (if rest.isEmpty then some acc else none)
    else if c = ',' then
      match rest with
      | q :: rest2 => if q = jsonQuote then skillsParse true [] acc rest2 else none
      | [] => none
    else none
  | false, _, _, [] => none

/-- `JSON.parse` restricted to the arrays of strings the service stores:
an opening bracket, either an immediate closing bracket or a sequence of
quoted strings, nothing after the final bracket. -/
def decodeSkillsL (cs : List Char) : Option (List (List Char)) :=
  match cs with
  | '[' :: ']' :: [] => some []
  | '[' :: q :: rest2 => if q = jsonQuote then skillsParse true [] [] rest2 else none
  | _ => none

/-- `JSON.stringify` on a list of Lean strings. -/
def encodeSkills (l : List String) : String :=
  String.mk (encodeSkillsL (l.map String.data))

/-- `JSON.parse` of a stored skills column into a list of Lean strings. -/
def decodeSkills (s : String) : Option (List String) :=
  (decodeSkillsL s.data).map (fun ls => ls.map String.mk)

/-- The expression `JSON.parse(user.skills || '[]')` of the two read
routes: a falsy (empty) stored value is replaced by the empty array
literal before parsing. -/
def parseSkillsField (s : String) : Option (List String) :=
  decodeSkills (if s = "" then "[]" else s)


/-! ## Correctness of the skills round trip -/

/-- Hexadecimal digits decode back to their value. -/
theorem hexVal_hexChar (n : Nat) (h : n < 16) : hexVal (hexChar n) = some n := by
  interval_cases n <;> rfl

/-- Reading one escaped character back appends exactly that character to
the open string body. -/
theorem skillsParse_escapeChar (c : Char) (cur cs : List Char) (acc : List (List Char)) :
    skillsParse true cur acc (escapeChar c ++ cs) =
    skillsParse true (cur ++ [c]) acc cs := by
  by_cases hq : c = jsonQuote
  · subst hq
    rw [show escapeChar jsonQuote = [jsonBS, jsonQuote] from rfl, skillsParse.eq_def]
    simp +decide
  by_cases hb : c = jsonBS
  · subst hb
    rw [show escapeChar jsonBS = [jsonBS, jsonBS] from rfl, skillsParse.eq_def]
    simp +decide
  by_cases h10 : c = Char.ofNat 10
  · subst h10
    rw [show escapeChar (Char.ofNat 10) = [jsonBS, 'n'] from rfl, skillsParse.eq_def]
    simp +decide
  by_cases h13 : c = Char.ofNat 13
  · subst h13
    rw [show escapeChar (Char.ofNat 13) = [jsonBS, 'r'] from rfl, skillsParse.eq_def]
    simp +decide
  by_cases h9 : c = Char.ofNat 9
  · subst h9
    rw [show escapeChar (Char.ofNat 9) = [jsonBS, 't'] from rfl, skillsParse.eq_def]
    simp +decide
  by_cases h8 : c = Char.ofNat 8
  · subst h8
    rw [show escapeChar (Char.ofNat 8) = [jsonBS, 'b'] from rfl, skillsParse.eq_def]
    simp +decide
  by_cases h12 : c = Char.ofNat 12
  · subst h12
    rw [show escapeChar (Char.ofNat 12) = [jsonBS, 'f'] from rfl, skillsParse.eq_def]
    simp +decide
  by_cases hlt : c.toNat < 32
  · have hdiv : c.toNat / 16 < 16 := by omega
    have hmod : c.toNat % 16 < 16 := by omega
    simp only [escapeChar, if_neg hq, if_neg hb, if_neg h10, if_neg h13, if_neg h9,
      if_neg h8, if_neg h12, if_pos hlt, List.cons_append, List.nil_append]
    rw [skillsParse.eq_def]
    simp +decide [hexVal_hexChar _ hdiv, hexVal_hexChar _ hmod,
      show hexVal ('0') = some 0 from rfl]
    rw [show c.toNat / 16 * 16 + c.toNat % 16 = c.toNat from by omega, Char.ofNat_toNat]
  · simp only [escapeChar, if_neg hq, if_neg hb, if_neg h10, if_neg h13, if_neg h9,
      if_neg h8, if_neg h12, if_neg hlt, List.cons_append, List.nil_append]
    rw [skillsParse.eq_def]
    simp [hq, hb, hlt]

/-- Reading an escaped string body up to its closing quote yields the
original body and leaves the parser between items. -/
theorem skillsParse_escapeStr (s : List Char) : ∀ cur rest (acc : List (List Char)),
    skillsParse true cur acc (escapeStr s ++ jsonQuote :: rest) =
    skillsParse false [] (acc ++ [cur ++ s]) rest := by
  induction s with
  | nil =>
    intro cur rest acc
    rw [show escapeStr [] = [] from rfl, List.nil_append, skillsParse.eq_def]
    simp +decide
  | cons c s ih =>
    intro cur rest acc
    have hsplit : escapeStr (c :: s) ++ jsonQuote :: rest =
        escapeChar c ++ (escapeStr s ++ jsonQuote :: rest) := by
      simp [escapeStr, List.append_assoc]
    rw [hsplit, skillsParse_escapeChar, ih]
    simp

/-- Reading the encoded tail of an array appends the remaining items. -/
theorem skillsParse_encTail (t : List (List Char)) : ∀ acc,
    skillsParse false [] acc (encTail t) = some (acc ++ t) := by
  induction t with
  | nil =>
    intro acc
    rw [show encTail [] = [']'] from rfl, skillsParse.eq_def]
    simp +decide
  | cons s t ih =>
    intro acc
    rw [show encTail (s :: t) = ',' :: jsonQuote :: (escapeStr s ++ jsonQuote :: encTail t)
        from rfl, skillsParse.eq_def]
    simp +decide
    rw [skillsParse_escapeStr, ih]
    simp

/-- The decoder inverts the encoder on every array of strings. -/
theorem decodeSkillsL_encodeSkillsL (l : List (List Char)) :
    decodeSkillsL (encodeSkillsL l) = some l := by
  cases l with
  | nil => rfl
  | cons s t =>
    rw [show encodeSkillsL (s :: t) = '[' :: jsonQuote :: (escapeStr s ++ jsonQuote :: encTail t)
        from rfl, decodeSkillsL.eq_def]
    simp +decide
    rw [skillsParse_escapeStr, skillsParse_encTail]
    simp

/-- String-level round trip: `JSON.parse` recovers exactly the array that
`JSON.stringify` stored. -/
theorem decodeSkills_encodeSkills (l : List String) :
    decodeSkills (encodeSkills l) = some l := by
  unfold decodeSkills encodeSkills
  rw [show (String.mk (encodeSkillsL (l.map String.data))).data =
      encodeSkillsL (l.map String.data) from rfl]
  rw [decodeSkillsL_encodeSkillsL]
  have hmk : ∀ s : String, String.mk s.data = s := fun ⟨d⟩ => rfl
  simp [Function.comp_def, hmk]

/-- An encoded skills array is never the empty string (it starts with a
bracket), so the falsy-guard in `JSON.parse(user.skills || '[]')` never
replaces it. -/
theorem encodeSkills_ne_empty (l : List String) : encodeSkills l ≠ "" := by
  intro h
  have hd : (encodeSkills l).data = "".data := congrArg String.data h
  cases l <;> simp [encodeSkills, encodeSkillsL] at hd

/-- The read routes' skills-decoding expression succeeds on every stored
encoded array. -/
theorem parseSkillsField_encodeSkills (l : List String) :
    parseSkillsField (encodeSkills l) = some l := by
  rw [parseSkillsField, if_neg (encodeSkills_ne_empty l), decodeSkills_encodeSkills]

/-! ## Server state and route handlers (`server.js`) -/

/-- One row of the `users` table.  `password` holds the bcrypt hash,
`skills` the JSON text stored by `JSON.stringify`; timestamps are
database-managed and never read by any route, so they are omitted. -/
structure UserRecord where
  id : Nat
  name : String
  email : String
  password : String
  phone : Option String
  role : String
  skills : String
deriving DecidableEq, Repr

/-- The persistent state: the table rows, the auto-increment counter
(MySQL starts at 1), and a counter standing for the stream of fresh
random salts produced by `bcrypt.genSalt`. -/
structure ServerState where
  records : List UserRecord
  nextId : Nat
  nextSalt : Nat
deriving DecidableEq, Repr

/-- Models `bcrypt.hashSync(password, salt)` with a cost-12 salt: a real
bcrypt digest embeds the cost and the salt verbatim and is a function of
(cost, salt, password), which is all the claims depend on; the digest body
is abstracted by the password text itself. -/
def bcryptHash (cost salt : Nat) (password : String) : String :=
  String.join ["$2b$", toString cost, "$", toString salt, "$", password]

/-- Response of `POST /api/users`: 400 with the violation list, 400 with a
conflict message, or 201 with the created record echoed (id, name, email,
phone, role and raw skills; never the hash). -/
inductive CreateResult where
  | badRequest (errors : List String)
  | conflict (message : String)
  | created (id : Nat) (name email : String) (phone : Option String)
      (role : String) (skills : Option (List String))
deriving DecidableEq, Repr

/-- `POST /api/users`: validate, reject a registered email, otherwise hash
the password with a fresh cost-12 salt and insert the row under the next
auto-increment id.  The name chain's `trim()` sanitizer has already
rewritten `req.body.name`, so the trimmed name is stored and echoed. -/
def createUser (s : ServerState) (p : Payload) : CreateResult × ServerState :=
  let errs := validateUser Method.post p
  if !errs.isEmpty then (CreateResult.badRequest errs, s)
  else if s.records.any (fun r => r.email == p.email) then
    (CreateResult.conflict "Email already registered", s)
  else
    let hashed := bcryptHash 12 s.nextSalt (p.password.getD "")
    let row : UserRecord :=
      { id := s.nextId, name := jsTrim p.name, email := p.email,
        password := hashed, phone := p.phone, role := p.role,
        skills := encodeSkills (p.skills.getD []) }
    (CreateResult.created s.nextId (jsTrim p.name) p.email p.phone p.role p.skills,
     { records := s.records ++ [row], nextId := s.nextId + 1, nextSalt := s.nextSalt + 1 })

/-- Response of `PUT /api/users/:id`. -/
inductive UpdateResult where
  | badRequest (errors : List String)
  | notFound (message : String)
  | conflict (message : String)
  | ok (message : String)
deriving DecidableEq, Repr

/-- The JS test `password && password.trim() !== ''` of the update
handler. -/
def passwordProvided (pw? : Option String) : Bool :=
  match pw? with
  | none => false
  | some pw => !(trimL pw.data).isEmpty

/-- The row produced by the `UPDATE users SET ...` statement for the
matched id: every column from the payload, the password column rewritten
only when a non-blank password was provided (hashed with the fresh
salt drawn at update time). -/
def updatedRecord (p : Payload) (salt : Nat) (r : UserRecord) : UserRecord :=
  { r with
    name := jsTrim p.name, email := p.email,
    password := if passwordProvided p.password
                then bcryptHash 12 salt (p.password.getD "")
                else r.password,
    phone := p.phone, role := p.role,
    skills := encodeSkills (p.skills.getD []) }

/-- `PUT /api/users/:id`: validate, require the id to exist, reject an
email owned by a different id, then update the row (rehashing the
password only when provided and non-blank). -/
def updateUser (s : ServerState) (userId : Nat) (p : Payload) : UpdateResult × ServerState :=
  let errs := validateUser Method.put p
  if !errs.isEmpty then (UpdateResult.badRequest errs, s)
  else if !(s.records.any (fun r => r.id == userId)) then
    (UpdateResult.notFound "User not found", s)
  else if p.email != "" && s.records.any (fun r => r.email == p.email && r.id != userId) then
    (UpdateResult.conflict "Email already in use by another account", s)
  else
    (UpdateResult.ok "User updated successfully",
     { records := s.records.map (fun r => if r.id == userId then updatedRecord p s.nextSalt r else r),
       nextId := s.nextId,
       nextSalt := if passwordProvided p.password then s.nextSalt + 1 else s.nextSalt })

/-- Response of `DELETE /api/users/:id`. -/
inductive DeleteResult where
  | notFound (message : String)
  | ok (message : String)
deriving DecidableEq, Repr

/-- `DELETE /api/users/:id`: remove the rows matching the id; when the
statement touched no row (`affectedRows === 0`), report not-found. -/
def deleteUser (s : ServerState) (userId : Nat) : DeleteResult × ServerState :=
  let remaining := s.records.filter (fun r => r.id != userId)
  if remaining.length == s.records.length then (DeleteResult.notFound "User not found", s)
  else (DeleteResult.ok "User deleted successfully", { s with records := remaining })

/-- A record as returned by the two read routes: the projection
`SELECT id, name, email, phone, role, skills` with the skills column
decoded; the password hash is not selected and has no field here. -/
structure PublicUser where
  id : Nat
  name : String
  email : String
  phone : Option String
  role : String
  skills : List String
deriving DecidableEq, Repr

/-- Response of `GET /api/users/:id`: 404, 500 (the `JSON.parse` throw is
caught by the handler), or the projected record. -/
inductive GetResult where
  | notFound (message : String)
  | serverError (message : String)
  | found (u : PublicUser)
deriving DecidableEq, Repr

/-- `GET /api/users/:id`: select the rows matching the id, take the first,
decode its skills column. -/
def getUserById (s : ServerState) (userId : Nat) : GetResult :=
  match (s.records.filter (fun r => r.id == userId)).head? with
  | none => GetResult.notFound "User not found"
  | some r =>
    match parseSkillsField r.skills with
    | some sk => GetResult.found ⟨r.id, r.name, r.email, r.phone, r.role, sk⟩
    | none => GetResult.serverError "Server error"

/-- The row mapping of `GET /api/users`: each projected row with its
skills column decoded; a `JSON.parse` throw on any row fails the whole
request (500, modelled as `none`). -/
def getUsersL : List UserRecord → Option (List PublicUser)
  | [] => some []
  | r :: rest =>
    match parseSkillsField r.skills with
    | none => none
    | some sk =>
      match getUsersL rest with
      | none => none
      | some us => some (⟨r.id, r.name, r.email, r.phone, r.role, sk⟩ :: us)

/-- `GET /api/users`. -/
def getUsers (s : ServerState) : Option (List PublicUser) :=
  getUsersL s.records

/-! ## Concrete fixtures used by witnesses and counterexamples -/

/-- A create payload passing all six validation checks. -/
def demoPayload : Payload :=
  ⟨"Bob", "a@b.co", some "Passw0rd!", none, "user", some ["React", "AWS"]⟩

/-- The empty store at process start. -/
def emptyState : ServerState := ⟨[], 1, 0⟩

/-- A store already holding one record that owns `a@b.co`. -/
def oneUserState : ServerState :=
  ⟨[⟨1, "Ann", "a@b.co", "$2b$12$9$Secret1!x", none, "admin", "[]"⟩], 2, 10⟩

/-- A store holding two records with distinct emails. -/
def twoUserState : ServerState :=
  ⟨[⟨1, "Ann", "a@b.co", "$2b$12$9$Secret1!x", none, "admin", "[]"⟩,
    ⟨2, "Cid", "c@d.co", "$2b$12$8$Secret2!y", none, "user", "[]"⟩], 3, 10⟩

/-! ## C1: duplicate email on create -/

/-- C1: a create payload that passes the six structural checks but whose
email is already registered is rejected with the 400 conflict message and
the stored records are untouched. -/
theorem C1_create_duplicate_email_conflict (s : ServerState) (p : Payload)
    (hv : validateUser Method.post p = [])
    (hdup : ∃ r ∈ s.records, r.email = p.email) :
    createUser s p = (CreateResult.conflict "Email already registered", s) := by
  unfold createUser
  rw [hv]
  have hany : s.records.any (fun r => r.email == p.email) = true := by
    rcases hdup with ⟨r, hr, he⟩
    exact List.any_eq_true.mpr ⟨r, hr, by simp [he]⟩
  simp [hany]

/-- C1 witness: the duplicate-email rejection at a concrete store and
payload. -/
theorem C1_create_duplicate_email_conflict_witness :
    createUser oneUserState demoPayload =
      (CreateResult.conflict "Email already registered", oneUserState) :=
  C1_create_duplicate_email_conflict oneUserState demoPayload (by decide) (by decide)

/-! ## C2: client password validity -/

/-- C2: the client validity flag is true exactly when the five policy
predicates all hold, or when an existing record is being edited and the
password field is empty. -/
theorem C2_isPasswordValid_iff (editingId : Option Nat) (pw : String) :
    isPasswordValid editingId pw = true ↔
      ((minLength8 pw = true ∧ hasUppercase pw = true ∧ hasLowercase pw = true ∧
        hasNumber pw = true ∧ hasSpecial pw = true) ∨
       (editingId.isSome = true ∧ pw = "")) := by
  unfold isPasswordValid validatePassword
  by_cases hs : editingId.isSome = true <;> by_cases hp : pw = "" <;>
    simp [hs, hp, Bool.and_eq_true] <;> tauto

/-! ## C5: the scenario payload with name "Jo" -/

/-- The scenario payload of the claim. -/
def joPayload : Payload := ⟨"Jo", "bad", some "x", none, "user", some []⟩

/-- C5 counterexample: the scenario request is indeed rejected with a 400
violation list, but the list carries no name-length violation, because
"Jo" already meets the 2-character minimum; the claim's "all three
present" is false. -/
theorem C5_counterexample :
    (createUser emptyState joPayload).1 =
      CreateResult.badRequest (validateUser Method.post joPayload) ∧
    "Name must be at least 2 characters" ∉ validateUser Method.post joPayload ∧
    "Invalid email address" ∈ validateUser Method.post joPayload := by
  decide

/-- C5 amended: the scenario request is rejected with exactly the email
violation and the four failing password-policy violations; no name
violation occurs since the trimmed name has length 2. -/
theorem C5_scenario_violations :
    (createUser emptyState joPayload).1 =
      CreateResult.badRequest
        ["Invalid email address",
         "Password must be at least 8 characters",
         "Password must contain at least one uppercase letter",
         "Password must contain at least one number",
         "Password must contain at least one special character"] := by
  decide

/-! ## C9: delete -/

/-- C9: deleting an id matching no record answers not-found and leaves the
store unchanged; deleting a present id removes exactly its rows and
acknowledges success. -/
theorem C9_delete_semantics (s : ServerState) (userId : Nat) :
    ((∀ r ∈ s.records, r.id ≠ userId) →
      deleteUser s userId = (DeleteResult.notFound "User not found", s)) ∧
    ((∃ r ∈ s.records, r.id = userId) →
      deleteUser s userId =
        (DeleteResult.ok "User deleted successfully",
         { s with records := s.records.filter (fun r => r.id != userId) })) := by
  constructor
  · intro h
    have hall : s.records.filter (fun r => r.id != userId) = s.records :=
      List.filter_eq_self.mpr (fun r hr => by simpa using h r hr)
    unfold deleteUser
    simp [hall]
  · rintro ⟨r, hr, he⟩
    have hne : (s.records.filter (fun r => r.id != userId)).length ≠ s.records.length := by
      intro hlen
      have := List.filter_length_eq_length.mp hlen r hr
      simp [he] at this
    unfold deleteUser
    simp [hne]

/-- C9 witness: both delete branches at a concrete store. -/
theorem C9_delete_semantics_witness :
    deleteUser oneUserState 7 = (DeleteResult.notFound "User not found", oneUserState) ∧
    deleteUser oneUserState 1 =
      (DeleteResult.ok "User deleted successfully",
       { oneUserState with records := [] }) := by
  refine ⟨(C9_delete_semantics oneUserState 7).1 (by decide), ?_⟩
  have h := (C9_delete_semantics oneUserState 1).2 ⟨oneUserState.records.head (by decide), by decide, by decide⟩
  rw [h]
  decide

/-! ## C7: phone optional on create -/

/-- C7 counterexample: a payload with no phone field passing all six
validation checks is still rejected (with the duplicate-email conflict,
not a 201) when its email is already registered, so the claim needs the
email-uniqueness proviso. -/
theorem C7_counterexample :
    demoPayload.phone = none ∧
    validateUser Method.post demoPayload = [] ∧
    (createUser oneUserState demoPayload).1 = CreateResult.conflict "Email already registered" ∧
    (createUser oneUserState demoPayload).2 = oneUserState := by
  decide

/-- C7 amended: when the payload additionally owns a fresh email, the
create succeeds with the 201 body and stores the new row with no phone
value. -/
theorem C7_phone_optional_create (s : ServerState) (p : Payload)
    (hv : validateUser Method.post p = [])
    (hph : p.phone = none)
    (hnd : ∀ r ∈ s.records, r.email ≠ p.email) :
    createUser s p =
      (CreateResult.created s.nextId (jsTrim p.name) p.email none p.role p.skills,
       { records := s.records ++
           [{ id := s.nextId, name := jsTrim p.name, email := p.email,
              password := bcryptHash 12 s.nextSalt (p.password.getD ""),
              phone := none, role := p.role,
              skills := encodeSkills (p.skills.getD []) }],
         nextId := s.nextId + 1, nextSalt := s.nextSalt + 1 }) := by
  unfold createUser
  rw [hv]
  have hany : s.records.any (fun r => r.email == p.email) = false :=
    List.any_eq_false.mpr (fun r hr => by simpa using hnd r hr)
  simp [hany, hph]

/-- C7 witness: the amended create at the empty store. -/
theorem C7_phone_optional_create_witness :
    createUser emptyState demoPayload =
      (CreateResult.created 1 "Bob" "a@b.co" none "user" (some ["React", "AWS"]),
       ⟨[⟨1, "Bob", "a@b.co", "$2b$12$0$Passw0rd!", none, "user",
          String.mk ['[', Char.ofNat 34, 'R', 'e', 'a', 'c', 't', Char.ofNat 34, ',',
                     Char.ofNat 34, 'A', 'W', 'S', Char.ofNat 34, ']']⟩], 2, 1⟩) := by
  have h := C7_phone_optional_create emptyState demoPayload (by decide) rfl (by decide)
  rw [h]
  decide

/-! ## Shared facts about the update handler -/

/-- A payload passing the middleware has a syntactically valid email. -/
theorem isEmail_of_validateUser {m : Method} {p : Payload}
    (hv : validateUser m p = []) : isEmail p.email = true := by
  by_contra h
  rw [Bool.not_eq_true] at h
  simp [validateUser, h] at hv

/-- A payload passing the middleware has a non-empty email (the empty
string is not a valid email). -/
theorem email_ne_empty_of_validateUser {m : Method} {p : Payload}
    (hv : validateUser m p = []) : p.email ≠ "" := by
  intro he
  have h := isEmail_of_validateUser hv
  rw [he] at h
  exact absurd h (by decide)

/-- Update on an id that matches no row answers 404 without mutation. -/
theorem updateUser_notFound (s : ServerState) (userId : Nat) (p : Payload)
    (hv : validateUser Method.put p = [])
    (hnone : ∀ r ∈ s.records, r.id ≠ userId) :
    updateUser s userId p = (UpdateResult.notFound "User not found", s) := by
  have hany : s.records.any (fun r => r.id == userId) = false :=
    List.any_eq_false.mpr (fun r hr => by simpa using hnone r hr)
  simp [updateUser, hv, hany]

/-- Update whose payload email is owned by a different id answers the 400
conflict without mutation. -/
theorem updateUser_conflict (s : ServerState) (userId : Nat) (p : Payload)
    (hv : validateUser Method.put p = [])
    (hex : ∃ r ∈ s.records, r.id = userId)
    (hc : ∃ r ∈ s.records, r.email = p.email ∧ r.id ≠ userId) :
    updateUser s userId p =
      (UpdateResult.conflict "Email already in use by another account", s) := by
  have hne : (p.email != "") = true := by
    simp [email_ne_empty_of_validateUser hv]
  have hany : s.records.any (fun r => r.id == userId) = true := by
    rcases hex with ⟨r, hr, he⟩
    exact List.any_eq_true.mpr ⟨r, hr, by simp [he]⟩
  have hconf : s.records.any (fun r => r.email == p.email && r.id != userId) = true := by
    rcases hc with ⟨r, hr, he, hi⟩
    exact List.any_eq_true.mpr ⟨r, hr, by simp [he, hi]⟩
  simp [updateUser, hv, hany, hconf, hne]

/-- Update on an existing id with no email conflict rewrites the matched
rows and acknowledges success. -/
theorem updateUser_ok (s : ServerState) (userId : Nat) (p : Payload)
    (hv : validateUser Method.put p = [])
    (hex : ∃ r ∈ s.records, r.id = userId)
    (hnc : ¬ ∃ r ∈ s.records, r.email = p.email ∧ r.id ≠ userId) :
    updateUser s userId p =
      (UpdateResult.ok "User updated successfully",
       { records := s.records.map
           (fun r => if r.id == userId then updatedRecord p s.nextSalt r else r),
         nextId := s.nextId,
         nextSalt := if passwordProvided p.password then s.nextSalt + 1 else s.nextSalt }) := by
  have hany : s.records.any (fun r => r.id == userId) = true := by
    rcases hex with ⟨r, hr, he⟩
    exact List.any_eq_true.mpr ⟨r, hr, by simp [he]⟩
  have hconf : s.records.any (fun r => r.email == p.email && r.id != userId) = false := by
    refine List.any_eq_false.mpr (fun r hr h => hnc ⟨r, hr, ?_⟩)
    simpa using h
  simp [updateUser, hv, hany, hconf]

/-! ## Update fixtures -/

/-- A valid PUT payload with a blank password that keeps record 1's own
email. -/
def keepEmailPayload : Payload := ⟨"Ann", "a@b.co", some "", none, "admin", some []⟩

/-- A valid PUT payload with a blank password whose email is owned by
record 2. -/
def stealEmailPayload : Payload := ⟨"Ann", "c@d.co", some "", none, "admin", some []⟩

/-- A valid PUT payload carrying a new policy-compliant password. -/
def rehashPayload : Payload := ⟨"Ann", "a@b.co", some "NewSecret1!", none, "admin", some []⟩

/-! ## C8: update branch structure -/

/-- An invalid payload makes the update answer 400 even when the target id
does not exist, so the not-found clause needs the validation proviso. -/
def badEmailPayload : Payload := ⟨"Ann", "bad", some "", none, "admin", some []⟩

/-- C8 counterexample: an update request whose payload fails validation
and whose id matches nothing returns the 400 violation list, not the
claimed not-found signal. -/
theorem C8_counterexample :
    (∀ r ∈ emptyState.records, r.id ≠ 5) ∧
    updateUser emptyState 5 badEmailPayload =
      (UpdateResult.badRequest ["Invalid email address"], emptyState) ∧
    (updateUser emptyState 5 badEmailPayload).1 ≠ UpdateResult.notFound "User not found" := by
  decide

/-- C8 amended: for update requests that pass validation, the handler
returns not-found without mutation when the id matches nothing; otherwise
it answers the email conflict (without mutation) exactly when some other
id owns the payload email, never when only the target row owns it (given
store-wide email uniqueness); and otherwise applies the update and
acknowledges success. -/
theorem C8_update_branch_structure (s : ServerState) (userId : Nat) (p : Payload)
    (hv : validateUser Method.put p = []) :
    ((∀ r ∈ s.records, r.id ≠ userId) →
      updateUser s userId p = (UpdateResult.notFound "User not found", s)) ∧
    ((∃ r ∈ s.records, r.id = userId) →
      (((∃ r ∈ s.records, r.email = p.email ∧ r.id ≠ userId) ↔
         (updateUser s userId p).1 =
           UpdateResult.conflict "Email already in use by another account") ∧
       ((∃ r ∈ s.records, r.email = p.email ∧ r.id ≠ userId) →
         (updateUser s userId p).2 = s) ∧
       ((¬ ∃ r ∈ s.records, r.email = p.email ∧ r.id ≠ userId) →
         updateUser s userId p =
           (UpdateResult.ok "User updated successfully",
            { records := s.records.map
                (fun r => if r.id == userId then updatedRecord p s.nextSalt r else r),
              nextId := s.nextId,
              nextSalt := if passwordProvided p.password then s.nextSalt + 1
                          else s.nextSalt })) ∧
       ((∀ r1 ∈ s.records, ∀ r2 ∈ s.records, r1.email = r2.email → r1.id = r2.id) →
        (∃ r ∈ s.records, r.id = userId ∧ r.email = p.email) →
         (updateUser s userId p).1 ≠
           UpdateResult.conflict "Email already in use by another account"))) := by
  refine ⟨fun hnone => updateUser_notFound s userId p hv hnone, fun hex => ⟨?_, ?_, ?_, ?_⟩⟩
  · constructor
    · intro hc
      rw [updateUser_conflict s userId p hv hex hc]
    · intro hres
      by_contra hnc
      rw [updateUser_ok s userId p hv hex hnc] at hres
      exact absurd hres (by simp)
  · intro hc
    rw [updateUser_conflict s userId p hv hex hc]
  · intro hnc
    exact updateUser_ok s userId p hv hex hnc
  · intro huniq hown hres
    rcases hown with ⟨rt, hrt, hid, hemail⟩
    have hnc : ¬ ∃ r ∈ s.records, r.email = p.email ∧ r.id ≠ userId := by
      rintro ⟨r, hr, he, hi⟩
      exact hi ((huniq r hr rt hrt (he.trans hemail.symm)).trans hid)
    rw [updateUser_ok s userId p hv hex hnc] at hres
    exact absurd hres (by simp)

/-- C8 witness: the three branches at concrete stores. -/
theorem C8_update_branch_structure_witness :
    updateUser twoUserState 9 keepEmailPayload = (UpdateResult.notFound "User not found", twoUserState) ∧
    (updateUser twoUserState 1 stealEmailPayload).1 =
      UpdateResult.conflict "Email already in use by another account" ∧
    (updateUser twoUserState 1 keepEmailPayload).1 ≠
      UpdateResult.conflict "Email already in use by another account" :=
  ⟨(C8_update_branch_structure twoUserState 9 keepEmailPayload (by decide)).1 (by decide),
   ((C8_update_branch_structure twoUserState 1 stealEmailPayload (by decide)).2
      (by decide)).1.mp (by decide),
   (((C8_update_branch_structure twoUserState 1 keepEmailPayload (by decide)).2
      (by decide)).2.2.2 (by decide) (by decide))⟩

/-! ## C3: password handling on update -/

/-- C3 counterexample: an update on an existing id whose payload has a
blank password and passes validation is still rejected (with the email
conflict, not a 200) when its email belongs to a different record, so the
claim needs the email-uniqueness proviso. -/
theorem C3_counterexample :
    validateUser Method.put stealEmailPayload = [] ∧
    passwordEmpty stealEmailPayload.password = true ∧
    (∃ r ∈ twoUserState.records, r.id = 1) ∧
    updateUser twoUserState 1 stealEmailPayload =
      (UpdateResult.conflict "Email already in use by another account", twoUserState) := by
  decide

/-- C3 amended: with the extra proviso that no other record owns the
payload email, an update with a blank or absent password succeeds and
rewrites the target row keeping its password hash byte-for-byte, while a
provided non-blank password makes the stored hash the cost-12 hash of the
new password; the remaining columns take the payload values (the name as
sanitized by the trim chain). -/
theorem C3_update_password_preservation (s : ServerState) (userId : Nat) (p : Payload)
    (hv : validateUser Method.put p = [])
    (hex : ∃ r ∈ s.records, r.id = userId)
    (hnc : ¬ ∃ r ∈ s.records, r.email = p.email ∧ r.id ≠ userId) :
    (updateUser s userId p).1 = UpdateResult.ok "User updated successfully" ∧
    (∀ r ∈ s.records, r.id = userId →
      (if passwordProvided p.password then
        ({ id := r.id, name := jsTrim p.name, email := p.email,
           password := bcryptHash 12 s.nextSalt (p.password.getD ""),
           phone := p.phone, role := p.role,
           skills := encodeSkills (p.skills.getD []) } : UserRecord)
       else
        { id := r.id, name := jsTrim p.name, email := p.email,
          password := r.password, phone := p.phone, role := p.role,
          skills := encodeSkills (p.skills.getD []) }) ∈ (updateUser s userId p).2.records) := by
  rw [updateUser_ok s userId p hv hex hnc]
  refine ⟨rfl, fun r hr hid => ?_⟩
  have hb : (r.id == userId) = true := by simp [hid]
  have hmem := List.mem_map_of_mem
    (fun r => if r.id == userId then updatedRecord p s.nextSalt r else r) hr
  simp only [hb, if_true] at hmem
  cases hpp : passwordProvided p.password <;>
    simpa [updatedRecord, hpp, hid] using hmem

/-- C3 witness: updating record 1 with a blank password keeps its exact
hash and applies the other payload fields; updating with a fresh password
stores the cost-12 hash of the new password drawn from the next salt. -/
theorem C3_update_password_preservation_witness :
    ({ id := 1, name := "Ann", email := "a@b.co", password := "$2b$12$9$Secret1!x",
       phone := none, role := "admin", skills := "[]" } : UserRecord) ∈
      (updateUser twoUserState 1 keepEmailPayload).2.records ∧
    ({ id := 1, name := "Ann", email := "a@b.co",
       password := bcryptHash 12 10 "NewSecret1!",
       phone := none, role := "admin", skills := "[]" } : UserRecord) ∈
      (updateUser twoUserState 1 rehashPayload).2.records := by
  constructor
  · have h := (C3_update_password_preservation twoUserState 1 keepEmailPayload
      (by decide) (by decide) (by decide)).2
      ⟨1, "Ann", "a@b.co", "$2b$12$9$Secret1!x", none, "admin", "[]"⟩ (by decide) rfl
    simpa using h
  · have h := (C3_update_password_preservation twoUserState 1 rehashPayload
      (by decide) (by decide) (by decide)).2
      ⟨1, "Ann", "a@b.co", "$2b$12$9$Secret1!x", none, "admin", "[]"⟩ (by decide) rfl
    simpa using h

/-! ## C6: idempotency of update -/

/-- C6 counterexample: repeating the same valid update with a non-blank
password leaves a different stored state than applying it once, because
the password is rehashed with a fresh salt on every application. -/
theorem C6_counterexample :
    validateUser Method.put rehashPayload = [] ∧
    (∃ r ∈ oneUserState.records, r.id = 1) ∧
    (updateUser (updateUser oneUserState 1 rehashPayload).2 1 rehashPayload).2 ≠
      (updateUser oneUserState 1 rehashPayload).2 := by
  decide

/-- C6 amended: for an existing id and a valid payload whose password is
absent or blank, the update is idempotent: a second identical application
returns the same acknowledgment and leaves the same stored state. -/
theorem C6_update_idempotent_blank_password (s : ServerState) (userId : Nat) (p : Payload)
    (hv : validateUser Method.put p = [])
    (hex : ∃ r ∈ s.records, r.id = userId)
    (hpw : passwordProvided p.password = false) :
    updateUser (updateUser s userId p).2 userId p = updateUser s userId p := by
  by_cases hc : ∃ r ∈ s.records, r.email = p.email ∧ r.id ≠ userId
  · rw [updateUser_conflict s userId p hv hex hc, updateUser_conflict s userId p hv hex hc]
  · rw [updateUser_ok s userId p hv hex hc]
    simp only [hpw, Bool.false_eq_true, if_false]
    have hid_g : ∀ r : UserRecord,
        ((if r.id == userId then updatedRecord p s.nextSalt r else r).id) = r.id := by
      intro r
      by_cases h : (r.id == userId) = true <;> simp [h, updatedRecord]
    have hex1 : ∃ r ∈ s.records.map
        (fun r => if r.id == userId then updatedRecord p s.nextSalt r else r), r.id = userId := by
      rcases hex with ⟨r, hr, he⟩
      exact ⟨_, List.mem_map_of_mem _ hr, (hid_g r).trans he⟩
    have hnc1 : ¬ ∃ r ∈ s.records.map
        (fun r => if r.id == userId then updatedRecord p s.nextSalt r else r),
        r.email = p.email ∧ r.id ≠ userId := by
      rintro ⟨r', hr', he', hne'⟩
      rcases List.mem_map.mp hr' with ⟨r, hr, rfl⟩
      have hrid : r.id ≠ userId := fun h => hne' ((hid_g r).trans h)
      rw [if_neg (by simp [hrid])] at he' hne'
      exact hc ⟨r, hr, he', hrid⟩
    have hok1 := updateUser_ok
      ⟨s.records.map (fun r => if r.id == userId then updatedRecord p s.nextSalt r else r),
       s.nextId, s.nextSalt⟩ userId p hv hex1 hnc1
    rw [hok1]
    simp only [hpw, Bool.false_eq_true, if_false]
    have hgg : ∀ r : UserRecord,
        (if (if r.id == userId then updatedRecord p s.nextSalt r else r).id == userId then
          updatedRecord p s.nextSalt (if r.id == userId then updatedRecord p s.nextSalt r else r)
         else (if r.id == userId then updatedRecord p s.nextSalt r else r)) =
        (if r.id == userId then updatedRecord p s.nextSalt r else r) := by
      intro r
      by_cases h : (r.id == userId) = true
      · rw [if_pos h, if_pos (by simpa [updatedRecord] using h)]
        simp [updatedRecord, hpw]
      · rw [if_neg h, if_neg h]
    have hmaps : List.map (fun r => if r.id == userId then updatedRecord p s.nextSalt r else r)
        (List.map (fun r => if r.id == userId then updatedRecord p s.nextSalt r else r) s.records) =
        List.map (fun r => if r.id == userId then updatedRecord p s.nextSalt r else r) s.records := by
      rw [List.map_map]
      exact List.map_congr_left (fun r _ => hgg r)
    simp [hpw, hmaps]
    intro a ha hid2
    by_cases h : a.id = userId
    · rw [if_pos h]
      simp [updatedRecord, hpw]
    · rw [if_neg h] at hid2
      exact absurd hid2 h

/-- C6 witness: repeating a blank-password update of record 1 reproduces
the state and acknowledgment of the single update. -/
theorem C6_update_idempotent_blank_password_witness :
    updateUser (updateUser twoUserState 1 keepEmailPayload).2 1 keepEmailPayload =
      updateUser twoUserState 1 keepEmailPayload :=
  C6_update_idempotent_blank_password twoUserState 1 keepEmailPayload
    (by decide) (by decide) (by decide)

/-! ## C4: create-then-fetch round trip -/

/-- The read projection never looks at the password column: rewriting
every stored hash leaves both read routes' answers unchanged. -/
theorem getUserById_password_independent (s : ServerState) (userId : Nat)
    (f : Nat → String) :
    getUserById { s with records := s.records.map (fun r => { r with password := f r.id }) }
      userId = getUserById s userId := by
  unfold getUserById
  rw [List.filter_map]
  have hcomp : ((fun r : UserRecord => r.id == userId) ∘ fun r => { r with password := f r.id }) =
      (fun r : UserRecord => r.id == userId) := rfl
  rw [hcomp, List.head?_map]
  cases (s.records.filter (fun r => r.id == userId)).head? <;> rfl

/-- Invariant of server-assigned ids: every stored row's id is below the
auto-increment counter, as after any sequence of operations from the
empty store. -/
def FreshIds (s : ServerState) : Prop :=
  ∀ r ∈ s.records, r.id < s.nextId

/-- C4: a successful create of a payload with skills `["React","AWS"]`
followed by a fetch of the returned id yields those skills in order, and
the answer carries no password data: it is invariant under rewriting all
stored hashes. -/
theorem C4_create_fetch_roundtrip (s : ServerState) (p : Payload) (s' : ServerState)
    (i : Nat) (n e : String) (ph : Option String) (ro : String) (sk : Option (List String))
    (hfresh : FreshIds s)
    (hsk : p.skills = some ["React", "AWS"])
    (hc : createUser s p = (CreateResult.created i n e ph ro sk, s')) :
    getUserById s' i =
      GetResult.found ⟨i, jsTrim p.name, p.email, p.phone, p.role, ["React", "AWS"]⟩ ∧
    (∀ f : Nat → String,
      getUserById { s' with records := s'.records.map (fun r => { r with password := f r.id }) } i =
      getUserById s' i) := by
  unfold createUser at hc
  by_cases h1 : (validateUser Method.post p).isEmpty
  swap
  · rw [if_pos (by simp [h1])] at hc
    exact absurd hc (by simp)
  rw [if_neg (by simp [h1])] at hc
  by_cases h2 : s.records.any (fun r => r.email == p.email)
  · rw [if_pos h2] at hc
    exact absurd hc (by simp)
  rw [if_neg h2] at hc
  rw [Prod.mk.injEq, CreateResult.created.injEq] at hc
  obtain ⟨⟨hi, -, -, -, -, -⟩, hs'⟩ := hc
  subst hi
  subst hs'
  refine ⟨?_, fun f => getUserById_password_independent _ _ f⟩
  unfold getUserById
  have hfilter : (s.records ++
      [({ id := s.nextId, name := jsTrim p.name, email := p.email,
          password := bcryptHash 12 s.nextSalt (p.password.getD ""),
          phone := p.phone, role := p.role,
          skills := encodeSkills (p.skills.getD []) } : UserRecord)]).filter
        (fun r => r.id == s.nextId) =
      [({ id := s.nextId, name := jsTrim p.name, email := p.email,
          password := bcryptHash 12 s.nextSalt (p.password.getD ""),
          phone := p.phone, role := p.role,
          skills := encodeSkills (p.skills.getD []) } : UserRecord)] := by
    rw [List.filter_append]
    have hold : s.records.filter (fun r => r.id == s.nextId) = [] :=
      List.filter_eq_nil_iff.mpr
        (fun r hr => by simpa using Nat.ne_of_lt (hfresh r hr))
    rw [hold]
    simp
  rw [hfilter]
  simp only [List.head?]
  rw [hsk]
  simp only [Option.getD_some]
  rw [parseSkillsField_encodeSkills]

/-- C4 witness: the round trip at the empty store. -/
theorem C4_create_fetch_roundtrip_witness :
    getUserById (createUser emptyState demoPayload).2 1 =
      GetResult.found ⟨1, "Bob", "a@b.co", none, "user", ["React", "AWS"]⟩ :=
  (C4_create_fetch_roundtrip emptyState demoPayload (createUser emptyState demoPayload).2
    1 "Bob" "a@b.co" none "user" (some ["React", "AWS"])
    (by intro r hr; cases hr) rfl (by decide)).1

/-! ## C10: well-formedness of the stored skills column -/

/-- The invariant: every stored skills column is the `JSON.stringify`
image of some array of strings. -/
def SkillsWF (s : ServerState) : Prop :=
  ∀ r ∈ s.records, ∃ l : List String, r.skills = encodeSkills l

/-- A well-formed skills column decodes successfully. -/
theorem parseSkillsField_isSome_of_wf {sk : String}
    (h : ∃ l : List String, sk = encodeSkills l) :
    (parseSkillsField sk).isSome = true := by
  rcases h with ⟨l, rfl⟩
  rw [parseSkillsField_encodeSkills]
  rfl

/-- The list route succeeds on every well-formed record list. -/
theorem getUsersL_isSome (rs : List UserRecord)
    (h : ∀ r ∈ rs, ∃ l : List String, r.skills = encodeSkills l) :
    (getUsersL rs).isSome = true := by
  induction rs with
  | nil => rfl
  | cons r rest ih =>
    have hr := parseSkillsField_isSome_of_wf (h r (by simp))
    rw [Option.isSome_iff_exists] at hr
    rcases hr with ⟨sk, hsk⟩
    have hrest := ih (fun r hr => h r (by simp [hr]))
    rw [Option.isSome_iff_exists] at hrest
    rcases hrest with ⟨us, hus⟩
    simp [getUsersL, hsk, hus]

/-- C10: both mutation handlers only ever store `JSON.stringify` output in
the skills column, the decoder inverts the encoder, and consequently the
two read routes never hit the `JSON.parse` failure path on a well-formed
store. -/
theorem C10_skills_column_wellformed :
    (∀ l : List String, decodeSkills (encodeSkills l) = some l) ∧
    (∀ s p, SkillsWF s → SkillsWF (createUser s p).2) ∧
    (∀ s userId p, SkillsWF s → SkillsWF (updateUser s userId p).2) ∧
    (∀ s userId, SkillsWF s → SkillsWF (deleteUser s userId).2) ∧
    (∀ s, SkillsWF s → (getUsers s).isSome = true) ∧
    (∀ s userId, SkillsWF s → getUserById s userId ≠ GetResult.serverError "Server error") := by
  refine ⟨decodeSkills_encodeSkills, ?_, ?_, ?_, ?_, ?_⟩
  · intro s p h
    unfold createUser
    by_cases h1 : (validateUser Method.post p).isEmpty
    swap
    · rw [if_pos (by simp [h1])]
      exact h
    rw [if_neg (by simp [h1])]
    by_cases h2 : s.records.any (fun r => r.email == p.email)
    · rw [if_pos h2]
      exact h
    rw [if_neg h2]
    intro r hr
    rcases List.mem_append.mp hr with hold | hnew
    · exact h r hold
    · rcases List.mem_singleton.mp hnew with rfl
      exact ⟨p.skills.getD [], rfl⟩
  · intro s userId p h
    unfold updateUser
    by_cases h1 : (validateUser Method.put p).isEmpty
    swap
    · rw [if_pos (by simp [h1])]
      exact h
    rw [if_neg (by simp [h1])]
    by_cases h2 : s.records.any (fun r => r.id == userId)
    swap
    · rw [if_pos (by simp [h2])]
      exact h
    rw [if_neg (by simp [h2])]
    by_cases h3 : p.email != "" && s.records.any (fun r => r.email == p.email && r.id != userId)
    · rw [if_pos h3]
      exact h
    rw [if_neg h3]
    intro r' hr'
    rcases List.mem_map.mp hr' with ⟨r, hr, rfl⟩
    by_cases hid : (r.id == userId) = true
    · rw [if_pos hid]
      exact ⟨p.skills.getD [], rfl⟩
    · rw [if_neg hid]
      exact h r hr
  · intro s userId h
    unfold deleteUser
    by_cases h1 : (s.records.filter (fun r => r.id != userId)).length == s.records.length
    · rw [if_pos h1]
      exact h
    · rw [if_neg h1]
      intro r hr
      exact h r (List.mem_filter.mp hr).1
  · intro s h
    exact getUsersL_isSome s.records h
  · intro s userId h
    unfold getUserById
    cases hh : (s.records.filter (fun r => r.id == userId)).head? with
    | none => simp
    | some r =>
      have hr : r ∈ s.records :=
        (List.mem_filter.mp (List.mem_of_mem_head? (by rw [hh]; rfl))).1
      have hsome := parseSkillsField_isSome_of_wf (h r hr)
      rw [Option.isSome_iff_exists] at hsome
      rcases hsome with ⟨sk, hsk⟩
      simp [hsk]

/-- C10 witness: the invariant and a successful decode at a concrete
store. -/
theorem C10_skills_column_wellformed_witness :
    decodeSkills (encodeSkills ["React", "AWS"]) = some ["React", "AWS"] ∧
    getUserById oneUserState 1 ≠ GetResult.serverError "Server error" := by
  constructor
  · exact C10_skills_column_wellformed.1 ["React", "AWS"]
  · refine C10_skills_column_wellformed.2.2.2.2.2 oneUserState 1 ?_
    intro r hr
    refine ⟨[], ?_⟩
    rcases List.mem_singleton.mp hr with rfl
    rfl

/-- Every handler keeps stored ids below the auto-increment counter, and
the empty store satisfies this, so `FreshIds` holds of every reachable
store. -/
theorem FreshIds_reachable :
    FreshIds ⟨[], 1, 0⟩ ∧
    (∀ s p, FreshIds s → FreshIds (createUser s p).2) ∧
    (∀ s userId p, FreshIds s → FreshIds (updateUser s userId p).2) ∧
    (∀ s userId, FreshIds s → FreshIds (deleteUser s userId).2) := by
  refine ⟨fun r hr => absurd hr (by simp), ?_, ?_, ?_⟩
  · intro s p h
    unfold createUser
    by_cases h1 : (validateUser Method.post p).isEmpty
    swap
    · rw [if_pos (by simp [h1])]
      exact h
    rw [if_neg (by simp [h1])]
    by_cases h2 : s.records.any (fun r => r.email == p.email)
    · rw [if_pos h2]
      exact h
    rw [if_neg h2]
    intro r hr
    rcases List.mem_append.mp hr with hold | hnew
    · exact Nat.lt_succ_of_lt (h r hold)
    · rcases List.mem_singleton.mp hnew with rfl
      exact Nat.lt_succ_self _
  · intro s userId p h
    unfold updateUser
    by_cases h1 : (validateUser Method.put p).isEmpty
    swap
    · rw [if_pos (by simp [h1])]
      exact h
    rw [if_neg (by simp [h1])]
    by_cases h2 : s.records.any (fun r => r.id == userId)
    swap
    · rw [if_pos (by simp [h2])]
      exact h
    rw [if_neg (by simp [h2])]
    by_cases h3 : p.email != "" && s.records.any (fun r => r.email == p.email && r.id != userId)
    · rw [if_pos h3]
      exact h
    rw [if_neg h3]
    intro r' hr'
    rcases List.mem_map.mp hr' with ⟨r, hr, rfl⟩
    by_cases hid : (r.id == userId) = true
    · rw [if_pos hid]
      exact h r hr
    · rw [if_neg hid]
      exact h r hr
  · intro s userId h
    unfold deleteUser
    by_cases h1 : (s.records.filter (fun r => r.id != userId)).length == s.records.length
    · rw [if_pos h1]
      exact h
    · rw [if_neg h1]
      intro r hr
      exact h r (List.mem_filter.mp hr).1
